import Mathlib

/-!
Shallow embedding of the SEC daily-index tutorial notebook
(`Web Scraping SEC - Daily Index.ipynb`).  Strings are modelled as `List Char`;
the Python string/list primitives used by the notebook (`split`, `replace`,
`rpartition`, slicing with negative indices, `in`) are reproduced with their
Python semantics, and the parsing loop of cell 12, the dictionary conversion of
cell 14 and the URL derivations of cell 16 are translated as they are written.
-/

/-- View a Lean string literal as the character list we compute with. -/
def str (s : String) : List Char := s.data

/-- Python `needle in hay` restricted to a prefix test at the current position:
`startsWith n h` is true when `n` is an initial segment of `h`. -/
def startsWith : List Char → List Char → Bool
  | [], _ => true
  | _ :: _, [] => false
  | n :: ns, h :: hs => if n = h then startsWith ns hs else false

/-- Python substring test `needle in hay` (scan every position). -/
def containsSub (needle : List Char) : List Char → Bool
  | [] => startsWith needle []
  | c :: rest => startsWith needle (c :: rest) || containsSub needle rest

/-- Python `text.split('  ')`: split on each non-overlapping occurrence of two
consecutive spaces, scanning left to right, keeping empty fields (cell 12). -/
def splitDoubleSpace : List Char → List (List Char)
  | [] => [[]]
  | [c] => [[c]]
  | c :: d :: rest =>
    if c = ' ' ∧ d = ' ' then [] :: splitDoubleSpace rest
    else (c :: (splitDoubleSpace (d :: rest)).headD []) :: (splitDoubleSpace (d :: rest)).tail

/-- Python `item.split('|')` (cell 12). -/
def splitPipe : List Char → List (List Char)
  | [] => [[]]
  | c :: rest =>
    if c = '|' then [] :: splitPipe rest
    else (c :: (splitPipe rest).headD []) :: (splitPipe rest).tail

/-- Python `docu_url.split('.txt')` (cell 16): split on each non-overlapping
occurrence of `.txt`, scanning left to right. -/
def splitTxt : List Char → List (List Char)
  | [] => [[]]
  | [c1] => [[c1]]
  | [c1, c2] => [[c1, c2]]
  | [c1, c2, c3] => [[c1, c2, c3]]
  | c1 :: c2 :: c3 :: c4 :: rest =>
    if c1 = '.' ∧ c2 = 't' ∧ c3 = 'x' ∧ c4 = 't' then [] :: splitTxt rest
    else (c1 :: (splitTxt (c2 :: c3 :: c4 :: rest)).headD []) ::
      (splitTxt (c2 :: c3 :: c4 :: rest)).tail

/-- Python `docu_url.replace('.txt','')` (cell 16): remove each non-overlapping
occurrence of `.txt`, scanning left to right. -/
def removeTxt : List Char → List Char
  | [] => []
  | [c1] => [c1]
  | [c1, c2] => [c1, c2]
  | [c1, c2, c3] => [c1, c2, c3]
  | c1 :: c2 :: c3 :: c4 :: rest =>
    if c1 = '.' ∧ c2 = 't' ∧ c3 = 'x' ∧ c4 = 't' then removeTxt rest
    else c1 :: removeTxt (c2 :: c3 :: c4 :: rest)

/-- Python `s.replace('-','')` (cell 16). -/
def removeDashes : List Char → List Char
  | [] => []
  | c :: rest => if c = '-' then removeDashes rest else c :: removeDashes rest

/-- Python `docu_url.rpartition('/')` (cell 16): split at the last `/`;
when no `/` occurs the first component is empty. -/
def rpartitionSlash (s : List Char) : List Char × List Char × List Char :=
  match s.reverse.dropWhile (fun c => c != '/') with
  | [] => ([], [], s)
  | _ :: before => (before.reverse, ['/'], (s.reverse.takeWhile (fun c => c != '/')).reverse)

/-- Python list slicing `l[start:stop]` with negative indices normalised by the
list length and then clamped, exactly as Python does (cell 12). -/
def pySlice (l : List α) (start stop : Int) : List α :=
  (l.take (if stop < 0 then max (stop + l.length) 0 else min stop (l.length : Int)).toNat).drop
    (if start < 0 then max (start + l.length) 0 else min start (l.length : Int)).toNat

/-- The `make_url` function of cell 3: append each component after a single
`/` separator, left to right. -/
def make_url (base_url : List Char) (comp : List (List Char)) : List Char :=
  comp.foldl (fun url r => url ++ '/' :: r) base_url

/-- The sentinel substring that ends the header block of a master index file
(cell 12). -/
def sentinel : List Char := str "ftp://ftp.sec.gov/edgar/"

/-- The `.txt` marker that anchors record extraction (cells 12 and 16). -/
def txtMark : List Char := str ".txt"

/-- The fixed archive base prepended to the document reference (cell 12). -/
def archivesBase : List Char := str "https://www.sec.gov/Archives/"

/-- The two ways the cell-12 parsing loop can raise: `sentinelNotFound` models
the `NameError` on `start_ind` when no chunk contains the sentinel, and
`indexError` models the `IndexError` of `mini_list[4] = ...` when the slice is
shorter than 5 entries. -/
inductive ParseError where
  | sentinelNotFound : ParseError
  | indexError : ParseError
deriving DecidableEq

/-- The header scan of cell 12: `for index, item in enumerate(data): if
sentinel in item: start_ind = index` — every match overwrites `start_ind`, so
the scan keeps the LAST chunk containing the sentinel. `none` models the
`NameError` raised later when `start_ind` was never assigned. -/
def scanSentinel : Nat → Option Nat → List (List Char) → Option Nat
  | _, acc, [] => acc
  | k, acc, item :: rest =>
    scanSentinel (k + 1) (if containsSub sentinel item then some k else acc) rest

/-- `start_ind` as computed by cell 12. -/
def findStartInd (data : List (List Char)) : Option Nat := scanSentinel 0 none data

/-- The inner loop of cell 12: scan the tokens of one chunk; a token containing
`.txt` anchors the window `clean_item_data[(index - 4):index + 1]`; a non-empty
window is emitted after rewriting entry 4 with the archive base, and the
rewrite raises `IndexError` when the window has fewer than 5 entries. -/
def extractFrom (clean : List (List Char)) :
    Nat → List (List Char) → Except ParseError (List (List (List Char)))
  | _, [] => Except.ok []
  | index, row :: rest =>
    if containsSub txtMark row then
      (let mini_list := pySlice clean ((index : Int) - 4) ((index : Int) + 1)
       if mini_list.length ≠ 0 then
         if 4 < mini_list.length then
           match extractFrom clean (index + 1) rest with
           | Except.error e => Except.error e
           | Except.ok tl =>
             Except.ok ((mini_list.set 4 (archivesBase ++ mini_list.getD 4 [])) :: tl)
         else Except.error ParseError.indexError
       else extractFrom clean (index + 1) rest)
    else extractFrom clean (index + 1) rest

/-- Record extraction over one chunk (cell 12 inner loop, from token 0). -/
def extractChunk (clean : List (List Char)) : Except ParseError (List (List (List Char))) :=
  extractFrom clean 0 clean

/-- `clean_item_data` of cell 12: replace line breaks by `|`, split on `|`,
and for the first post-header chunk only drop the first 8 tokens. -/
def cleanTokens (index : Nat) (item : List Char) : List (List Char) :=
  let tokens := splitPipe (item.map (fun ch => if ch = '\n' then '|' else ch))
  if index = 0 then tokens.drop 8 else tokens

/-- The outer loop of cell 12 over the post-header chunks, accumulating
`master_data`; an exception anywhere discards everything. -/
def parseChunksFrom : Nat → List (List Char) → Except ParseError (List (List (List Char)))
  | _, [] => Except.ok []
  | index, item :: rest =>
    match extractChunk (cleanTokens index item), parseChunksFrom (index + 1) rest with
    | Except.error e, _ => Except.error e
    | Except.ok _, Except.error e => Except.error e
    | Except.ok xs, Except.ok ys => Except.ok (xs ++ ys)

/-- The whole cell-12 parse of a raw master-index text: split on double
spaces, locate the header end, and extract records from the chunks after it. -/
def parse (rawText : List Char) : Except ParseError (List (List (List Char))) :=
  match findStartInd (splitDoubleSpace rawText) with
  | none => Except.error ParseError.sentinelNotFound
  | some start_ind => parseChunksFrom 0 ((splitDoubleSpace rawText).drop (start_ind + 1))

/-- The spec's reading of the header scan, for comparison with cell 12: the
FIRST chunk containing the sentinel ends the header.  This definition follows
the spec's words, not the code. -/
def scanSentinelFirst : Nat → List (List Char) → Option Nat
  | _, [] => none
  | k, item :: rest =>
    if containsSub sentinel item then some k else scanSentinelFirst (k + 1) rest

/-- Parse as the spec describes it, cutting the header at the FIRST sentinel
chunk (spec-words definition, used only to exhibit the divergence). -/
def specParseFirstSentinel (rawText : List Char) :
    Except ParseError (List (List (List Char))) :=
  match scanSentinelFirst 0 (splitDoubleSpace rawText) with
  | none => Except.error ParseError.sentinelNotFound
  | some start_ind => parseChunksFrom 0 ((splitDoubleSpace rawText).drop (start_ind + 1))

/-- Cell 16: `docu_url.split('.txt')[0] + '-index.htm'` (the Filing Detail
landing page, `file_url_archive` in the notebook). -/
def file_url_archive (docu_url : List Char) : List Char :=
  (splitTxt docu_url).headD [] ++ str "-index.htm"

/-- Cell 16: `docu_url.replace('.txt','').replace('-','')` (the archive
folder). -/
def archive_url (docu_url : List Char) : List Char :=
  removeDashes (removeTxt docu_url)

/-- Cell 16: `docu_url.rpartition('/')[0]` (the company archive folder; the
notebook binds the triple to `company_url` and prints `company_url[0]`). -/
def company_url (docu_url : List Char) : List Char :=
  (rpartitionSlash docu_url).1

/-- The document dictionary of cell 14. -/
structure DocumentDict where
  cik_number : List Char
  company_name : List Char
  form_id : List Char
  date : List Char
  file_url : List Char
deriving DecidableEq

/-- Cell 14: build one dictionary from one 5-entry record of `master_data`. -/
def toDocumentDict (document : List (List Char)) : DocumentDict :=
  { cik_number := document.getD 0 []
    company_name := document.getD 1 []
    form_id := document.getD 2 []
    date := document.getD 3 []
    file_url := document.getD 4 [] }

/-- Cell 14: `master_data[index] = document_dict` for every index — an
in-place, order-preserving map over the master list. -/
def toDocumentDicts (master_data : List (List (List Char))) : List DocumentDict :=
  master_data.map toDocumentDict

/-- A document dictionary extended with the three URLs cell 16 derives from
`file_url` (the spec's DocumentRecord). -/
structure DocumentRecord where
  cik_number : List Char
  company_name : List Char
  form_id : List Char
  date : List Char
  file_url : List Char
  detailUrl : List Char
  archiveUrl : List Char
  issuerUrl : List Char
deriving DecidableEq

/-- The cell-16 derivations packaged per record: the three URLs are computed
from `file_url`; the five stored fields are carried over untouched. -/
def toDocumentRecord (d : DocumentDict) : DocumentRecord :=
  { cik_number := d.cik_number
    company_name := d.company_name
    form_id := d.form_id
    date := d.date
    file_url := d.file_url
    detailUrl := file_url_archive d.file_url
    archiveUrl := archive_url d.file_url
    issuerUrl := company_url d.file_url }

/-- The cell-16 filter: keep the dictionaries whose `form_id` equals the
requested form type (Python `==`, exact and case-sensitive), in order. -/
def filterByFormType (records : List DocumentDict) (form : List Char) : List DocumentDict :=
  records.filter (fun d => d.form_id == form)

/-! Concrete inputs used by the scenario theorems, counterexamples and
witnesses below. -/

/-- Raw text whose sentinel occurs in two chunks (indices 0 and 3), with a
data row between the two occurrences and one after. -/
def rawTwoSentinels : List Char :=
  str "ftp://ftp.sec.gov/edgar/  X  1|A|4|20190401|edgar/a.txt  more ftp://ftp.sec.gov/edgar/ note  Y  2|B|8-K|20190402|edgar/b.txt"

/-- Raw text with the sentinel chunk directly followed by one data row. -/
def rawOneRecord : List Char :=
  str "ftp://ftp.sec.gov/edgar/  1|A|4|20190401|edgar/a.txt"

/-- The spec's Bradbury scenario input taken literally: the sentinel followed
by the data row. -/
def rawBradburyLiteral : List Char :=
  str "ftp://ftp.sec.gov/edgar/  1236397|BRADBURY DANIEL|4|20190401|edgar/data/1236397/0000886744-19-000047.txt"

/-- The Bradbury scenario with a filler chunk before the data row, so the row
is not the first post-header chunk (whose first 8 tokens are dropped). -/
def rawBradburyAmended : List Char :=
  str "ftp://ftp.sec.gov/edgar/  h  1236397|BRADBURY DANIEL|4|20190401|edgar/data/1236397/0000886744-19-000047.txt"

/-- Raw text whose second post-header chunk has a single token containing
`.txt` (a chunk with fewer than 5 tokens). -/
def rawShortChunk : List Char := str "ftp://ftp.sec.gov/edgar/  h  x.txt"

/-- Same shape as `rawShortChunk`, with different letters. -/
def rawShortChunkB : List Char := str "ftp://ftp.sec.gov/edgar/  k  y.txt"

/-- Raw text whose data chunk has 6 tokens with the `.txt` token first, so the
anchored window has fewer than 5 tokens and is skipped. -/
def rawSkippedWindow : List Char := str "ftp://ftp.sec.gov/edgar/  h  x.txt|a|b|c|d|e"

/-- Raw text with a sentinel and a non-empty data section containing no
`.txt` token at all: zero records are extracted. -/
def rawZeroRecords : List Char := str "ftp://ftp.sec.gov/edgar/  hello"

/-- Raw text with a well-formed data row in the second post-header chunk. -/
def rawFiveTokens : List Char :=
  str "ftp://ftp.sec.gov/edgar/  h  1|A|4|20190401|edgar/a.txt"

/-- The record extracted from the `1|A|...` row. -/
def recA : List (List Char) :=
  [str "1", str "A", str "4", str "20190401", str "https://www.sec.gov/Archives/edgar/a.txt"]

/-- The record extracted from the `2|B|...` row. -/
def recB : List (List Char) :=
  [str "2", str "B", str "8-K", str "20190402", str "https://www.sec.gov/Archives/edgar/b.txt"]

/-- The record extracted from the Bradbury row. -/
def recBradbury : List (List Char) :=
  [str "1236397", str "BRADBURY DANIEL", str "4", str "20190401",
    str "https://www.sec.gov/Archives/edgar/data/1236397/0000886744-19-000047.txt"]

/-- A sample 10-K document dictionary. -/
def dict10K : DocumentDict :=
  ⟨str "1000045", str "NICHOLAS FINANCIAL INC", str "10-K", str "20190401",
    str "https://www.sec.gov/Archives/edgar/data/1000045/0001.txt"⟩

/-- A sample form-4 document dictionary. -/
def dict4 : DocumentDict :=
  ⟨str "1236397", str "BRADBURY DANIEL", str "4", str "20190401",
    str "https://www.sec.gov/Archives/edgar/data/1236397/0002.txt"⟩

/-! Helper lemmas. -/

lemma removeDashes_no_dash (s : List Char) : (removeDashes s).count '-' = 0 := by
  induction s with
  | nil => rfl
  | cons c rest ih =>
    rw [removeDashes]
    split_ifs with hc
    · exact ih
    · simp [List.count_cons, ih, hc]

lemma make_url_eq_flatten : ∀ (comp : List (List Char)) (base_url : List Char),
    make_url base_url comp = base_url ++ (comp.map (fun r => '/' :: r)).flatten := by
  intro comp
  induction comp with
  | nil => intro b; simp [make_url]
  | cons r rs ih =>
    intro b
    show make_url (b ++ '/' :: r) rs = _
    rw [ih (b ++ '/' :: r)]
    simp

/-! Claim theorems. -/

/-- C9: `make_url` returns the base followed by each component in order, each
preceded by exactly one `/`, with contents unchanged; the empty component list
returns the base itself, and the function is total. -/
theorem make_url_append : ∀ (base_url : List Char) (comp : List (List Char)),
    make_url base_url comp = base_url ++ (comp.map (fun r => '/' :: r)).flatten ∧
    make_url base_url [] = base_url :=
  fun base_url comp => ⟨make_url_eq_flatten comp base_url, rfl⟩

/-- C9 witness: the cell-3 example URL. -/
theorem make_url_append_w :
    make_url (str "https://www.sec.gov/Archives/edgar/data") [str "886982", str "index.json"] =
      str "https://www.sec.gov/Archives/edgar/data" ++
        ([str "886982", str "index.json"].map (fun r => '/' :: r)).flatten :=
  (make_url_append (str "https://www.sec.gov/Archives/edgar/data")
    [str "886982", str "index.json"]).1

/-- C10: the cell-14 dictionary conversion preserves the record count and
order and stores the five fields unchanged under their fixed keys, and the
cell-16 URL derivations read `file_url` but change none of the five stored
fields. -/
theorem document_dict_frame : ∀ (master_data : List (List (List Char))),
    (toDocumentDicts master_data).length = master_data.length ∧
    (∀ i : Nat, (toDocumentDicts master_data)[i]? = (master_data[i]?).map toDocumentDict) ∧
    (∀ a b c d e : List Char, toDocumentDict [a, b, c, d, e] = ⟨a, b, c, d, e⟩) ∧
    (∀ dict : DocumentDict,
      (toDocumentRecord dict).cik_number = dict.cik_number ∧
      (toDocumentRecord dict).company_name = dict.company_name ∧
      (toDocumentRecord dict).form_id = dict.form_id ∧
      (toDocumentRecord dict).date = dict.date ∧
      (toDocumentRecord dict).file_url = dict.file_url) := by
  intro master_data
  refine ⟨by simp [toDocumentDicts], fun i => by simp [toDocumentDicts],
    fun a b c d e => rfl, fun dict => ⟨rfl, rfl, rfl, rfl, rfl⟩⟩

/-- C10 witness: conversion of a one-record master list keeps its length. -/
theorem document_dict_frame_w :
    (toDocumentDicts [recBradbury]).length = [recBradbury].length :=
  (document_dict_frame [recBradbury]).1

/-- C8: the cell-16 filter keeps exactly the dictionaries whose `form_id`
equals the requested form type (case-sensitive exact comparison), preserves
the original relative order (it is a sublist), and is idempotent. -/
theorem filter_by_form_type_exact : ∀ (records : List DocumentDict) (form : List Char),
    (∀ d : DocumentDict, d ∈ filterByFormType records form ↔ (d ∈ records ∧ d.form_id = form)) ∧
    List.Sublist (filterByFormType records form) records ∧
    filterByFormType (filterByFormType records form) form = filterByFormType records form := by
  intro records form
  refine ⟨fun d => ?_, List.filter_sublist records, ?_⟩
  · simp [filterByFormType, List.mem_filter]
  · show List.filter _ (List.filter _ records) = List.filter _ records
    rw [List.filter_filter]
    simp

/-- C8 witness: filtering a two-dictionary list for 10-K twice equals
filtering it once. -/
theorem filter_by_form_type_exact_w :
    filterByFormType (filterByFormType [dict10K, dict4] (str "10-K")) (str "10-K") =
      filterByFormType [dict10K, dict4] (str "10-K") :=
  (filter_by_form_type_exact [dict10K, dict4] (str "10-K")).2.2

/-- C5 counterexample: `documentReference = "https://www.sec.gov/Archives/a.t-xt.txt"`
is an absolute URL ending in `.txt`, yet its archive folder URL ends in
`.txt`: removing the single `.txt` occurrence leaves `...a.t-xt`, and the
dash removal then recreates the `.txt` suffix, contradicting the claim that
the result never ends in `.txt`. -/
theorem archive_folder_url_txt_suffix_cex :
    txtMark <:+ str "https://www.sec.gov/Archives/a.t-xt.txt" ∧
    archive_url (str "https://www.sec.gov/Archives/a.t-xt.txt") =
      str "https://www.sec.gov/Archives/a.txt" ∧
    txtMark <:+ archive_url (str "https://www.sec.gov/Archives/a.t-xt.txt") :=
  ⟨⟨str "https://www.sec.gov/Archives/a.t-xt", rfl⟩, rfl,
    ⟨str "https://www.sec.gov/Archives/a", rfl⟩⟩

/-- C5 (amended): the archive folder URL is the document reference with every
`.txt` occurrence and every `-` removed; the result never contains `-`, and
the scenario reference `.../1239188/0001144204-19-017485.txt` maps to
`.../1239188/000114420419017485`; the no-`.txt`-suffix guarantee of the
original claim can fail when the removals recreate the suffix. -/
theorem archive_folder_url_dashless :
    (∀ s : List Char, (archive_url s).count '-' = 0) ∧
    archive_url (str "https://www.sec.gov/Archives/edgar/data/1239188/0001144204-19-017485.txt") =
      str "https://www.sec.gov/Archives/edgar/data/1239188/000114420419017485" ∧
    str "1239188/000114420419017485" <:+
      archive_url (str "https://www.sec.gov/Archives/edgar/data/1239188/0001144204-19-017485.txt") :=
  ⟨fun s => removeDashes_no_dash (removeTxt s), rfl,
    ⟨str "https://www.sec.gov/Archives/edgar/data/", rfl⟩⟩

/-- C5 witness: a dashed reference maps to a dash-free archive folder URL. -/
theorem archive_folder_url_dashless_w :
    (archive_url (str "https://x/0001-19.txt")).count '-' = 0 :=
  archive_folder_url_dashless.1 (str "https://x/0001-19.txt")

lemma splitTxt_aux1 (a : Char) : splitTxt [a, '.', 't', 'x', 't'] = [[a], []] := by
  rw [splitTxt, if_neg]
  · rfl
  · rintro ⟨-, h1, -⟩
    exact absurd h1 (by decide)

lemma splitTxt_aux2 (a b : Char) : splitTxt [a, b, '.', 't', 'x', 't'] = [[a, b], []] := by
  rw [splitTxt, if_neg]
  · rw [splitTxt_aux1]
    rfl
  · rintro ⟨-, -, h1, -⟩
    exact absurd h1 (by decide)

lemma splitTxt_aux3 (a b c : Char) :
    splitTxt [a, b, c, '.', 't', 'x', 't'] = [[a, b, c], []] := by
  rw [splitTxt, if_neg]
  · rw [splitTxt_aux2]
    rfl
  · rintro ⟨-, -, -, h1⟩
    exact absurd h1 (by decide)

/-- Splitting `stem ++ ".txt"` on `.txt` when `stem` itself contains no
`.txt` occurrence yields exactly `[stem, ""]`. -/
lemma splitTxt_of_txt_free : ∀ stem : List Char, containsSub txtMark stem = false →
    splitTxt (stem ++ txtMark) = [stem, []] := by
  intro stem
  induction stem with
  | nil => intro _; rfl
  | cons c rest ih =>
    intro h
    rw [containsSub] at h
    have hp : startsWith txtMark (c :: rest) = false := (Bool.or_eq_false_iff.mp h).1
    have h2 : containsSub txtMark rest = false := (Bool.or_eq_false_iff.mp h).2
    rcases rest with _ | ⟨a, _ | ⟨b, _ | ⟨d, rest2⟩⟩⟩
    · rw [show [c] ++ txtMark = [c, '.', 't', 'x', 't'] from rfl, splitTxt_aux1]
    · rw [show [c, a] ++ txtMark = [c, a, '.', 't', 'x', 't'] from rfl, splitTxt_aux2]
    · rw [show [c, a, b] ++ txtMark = [c, a, b, '.', 't', 'x', 't'] from rfl, splitTxt_aux3]
    · show splitTxt (c :: a :: b :: d :: (rest2 ++ txtMark)) = _
      rw [splitTxt]
      split_ifs with hcond
      · exfalso
        obtain ⟨hc1, hc2, hc3, hc4⟩ := hcond
        subst hc1; subst hc2; subst hc3; subst hc4
        simp [txtMark, str, startsWith] at hp
      · have ih2 : splitTxt (a :: b :: d :: (rest2 ++ txtMark)) =
            [a :: b :: d :: rest2, []] := ih h2
        rw [ih2]
        rfl

/-- C6 counterexample: `"https://x/a.txtb/0001-19.txt"` ends in
`ACCESSION.txt` but contains an earlier `.txt` occurrence; cell 16 cuts at the
FIRST occurrence, so the detail URL is `"https://x/a-index.htm"`, not the
claimed `"https://x/a.txtb/0001-19-index.htm"` with only the trailing `.txt`
replaced. -/
theorem detail_url_first_txt_cex :
    txtMark <:+ str "https://x/a.txtb/0001-19.txt" ∧
    file_url_archive (str "https://x/a.txtb/0001-19.txt") = str "https://x/a-index.htm" ∧
    file_url_archive (str "https://x/a.txtb/0001-19.txt") ≠
      str "https://x/a.txtb/0001-19-index.htm" :=
  ⟨⟨str "https://x/a.txtb/0001-19", rfl⟩, rfl, by decide⟩

/-- C6 (amended): the detail URL is the prefix of the document reference
before its FIRST `.txt` occurrence, followed by `-index.htm`; when the
trailing `.txt` is the only occurrence this equals replacing the trailing
`.txt` by `-index.htm`, and the result ends in `-index.htm`. -/
theorem detail_url_trailing_txt : ∀ stem : List Char, containsSub txtMark stem = false →
    file_url_archive (stem ++ txtMark) = stem ++ str "-index.htm" ∧
    str "-index.htm" <:+ file_url_archive (stem ++ txtMark) := by
  intro stem h
  have hsplit := splitTxt_of_txt_free stem h
  constructor
  · rw [file_url_archive, hsplit]
    rfl
  · rw [file_url_archive, hsplit]
    exact List.suffix_append _ _

/-- C6 witness: the Bradbury document reference, whose only `.txt` occurrence
is the trailing suffix. -/
theorem detail_url_trailing_txt_w :
    containsSub txtMark
      (str "https://www.sec.gov/Archives/edgar/data/1236397/0000886744-19-000047") = false ∧
    file_url_archive
      (str "https://www.sec.gov/Archives/edgar/data/1236397/0000886744-19-000047" ++ txtMark) =
      str "https://www.sec.gov/Archives/edgar/data/1236397/0000886744-19-000047" ++
        str "-index.htm" :=
  ⟨by decide,
    (detail_url_trailing_txt
      (str "https://www.sec.gov/Archives/edgar/data/1236397/0000886744-19-000047")
      (by decide)).1⟩

lemma dropWhile_append_all {p : Char → Bool} :
    ∀ l r : List Char, (∀ a ∈ l, p a = true) → (l ++ r).dropWhile p = r.dropWhile p := by
  intro l
  induction l with
  | nil => intro r _; rfl
  | cons c cs ih =>
    intro r h
    have hc : p c = true := h c (by simp)
    simp only [List.cons_append, List.dropWhile_cons, hc, if_true]
    exact ih r (fun a ha => h a (by simp [ha]))

/-- C7: `rpartition('/')` truncation: for a reference of the shape
`pre/CIK/filename` (with no `/` in the CIK or the filename), the company
archive URL is `pre/CIK` — the reference truncated at its last path
separator, the filename dropped entirely — and it is a strict prefix of the
reference ending with the CIK segment. -/
theorem issuer_folder_url_truncation : ∀ pre cik fname : List Char,
    '/' ∉ cik → '/' ∉ fname →
    company_url ((pre ++ '/' :: cik) ++ '/' :: fname) = pre ++ '/' :: cik ∧
    (pre ++ '/' :: cik) <+: ((pre ++ '/' :: cik) ++ '/' :: fname) ∧
    pre ++ '/' :: cik ≠ (pre ++ '/' :: cik) ++ '/' :: fname := by
  intro pre cik fname _ hf
  have hdrop : (((pre ++ '/' :: cik) ++ '/' :: fname).reverse.dropWhile (fun c => c != '/')) =
      '/' :: (cik.reverse ++ '/' :: pre.reverse) := by
    have hrev : ((pre ++ '/' :: cik) ++ '/' :: fname).reverse =
        fname.reverse ++ '/' :: (cik.reverse ++ '/' :: pre.reverse) := by
      simp
    rw [hrev, dropWhile_append_all]
    · rw [List.dropWhile_cons]
      simp
    · intro a ha
      simp only [List.mem_reverse] at ha
      simp [bne_iff_ne]
      exact fun hav => hf (hav ▸ ha)
  refine ⟨?_, ⟨'/' :: fname, rfl⟩, ?_⟩
  · unfold company_url rpartitionSlash
    rw [hdrop]
    simp
  · intro heq
    have := congrArg List.length heq
    simp at this

/-- C7 witness: the Bradbury document reference split at its last `/`. -/
theorem issuer_folder_url_truncation_w :
    company_url ((str "https://www.sec.gov/Archives/edgar/data" ++ '/' :: str "1236397") ++
        '/' :: str "0000886744-19-000047.txt") =
      str "https://www.sec.gov/Archives/edgar/data" ++ '/' :: str "1236397" :=
  (issuer_folder_url_truncation _ _ _ (by decide) (by decide)).1

lemma scanSentinel_all_false : ∀ (l : List (List Char)) (k : Nat) (acc : Option Nat),
    (∀ x ∈ l, containsSub sentinel x = false) → scanSentinel k acc l = acc := by
  intro l
  induction l with
  | nil => intro k acc _; rfl
  | cons item rest ih =>
    intro k acc h
    have hitem : containsSub sentinel item = false := h item (by simp)
    rw [scanSentinel, hitem]
    exact ih (k + 1) acc (fun x hx => h x (by simp [hx]))

/-- The cell-12 header scan returns the index of the LAST chunk containing
the sentinel. -/
lemma scanSentinel_last : ∀ (l : List (List Char)) (i k : Nat) (acc : Option Nat),
    i < l.length → containsSub sentinel (l.getD i []) = true →
    (∀ j, j < l.length → i < j → containsSub sentinel (l.getD j []) = false) →
    scanSentinel k acc l = some (k + i) := by
  intro l
  induction l with
  | nil => intro i k acc hi; exact absurd hi (by simp)
  | cons item rest ih =>
    intro i k acc hi hsent hlast
    cases i with
    | zero =>
      have hitem : containsSub sentinel item = true := by simpa using hsent
      rw [scanSentinel, hitem]
      have hall : ∀ x ∈ rest, containsSub sentinel x = false := by
        intro x hx
        obtain ⟨j, hj, hget⟩ := List.mem_iff_getElem.mp hx
        have hx2 := hlast (j + 1) (by simpa using Nat.succ_lt_succ hj) (Nat.succ_pos j)
        rw [List.getD_cons_succ, List.getD_eq_getElem rest [] hj, hget] at hx2
        exact hx2
      exact scanSentinel_all_false rest (k + 1) (some k) hall
    | succ i2 =>
      rw [scanSentinel]
      have hrec := ih i2 (k + 1) (if containsSub sentinel item then some k else acc)
        (by simpa using Nat.lt_of_succ_lt_succ hi)
        (by rw [List.getD_cons_succ] at hsent; exact hsent)
        (fun j hj hij => by
          have := hlast (j + 1) (by simpa using Nat.succ_lt_succ hj) (Nat.succ_lt_succ hij)
          rw [List.getD_cons_succ] at this
          exact this)
      rw [hrec]
      have : k + 1 + i2 = k + (i2 + 1) := by omega
      rw [this]

/-- C1 counterexample: with the sentinel present in chunks 0 and 3, cell 12
keeps the LAST occurrence, so only the record after chunk 3 is extracted; the
claim's first-occurrence reading (the spec-words definition
`specParseFirstSentinel`) would also extract the record between the two
occurrences. -/
theorem sentinel_first_occurrence_cex :
    parse rawTwoSentinels = Except.ok [recB] ∧
    specParseFirstSentinel rawTwoSentinels = Except.ok [recA, recB] ∧
    ([recB] : List (List (List Char))) ≠ [recA, recB] :=
  ⟨rfl, rfl, by decide⟩

/-- C1 (amended): the LAST chunk containing the sentinel marks the end of the
header block; all chunks at or before it are discarded and record extraction
proceeds from the next chunk onward; when the sentinel occurs in more than
one chunk the data section begins immediately after the last occurrence. -/
theorem sentinel_scan_last_occurrence : ∀ (raw : List Char) (i : Nat),
    i < (splitDoubleSpace raw).length →
    containsSub sentinel ((splitDoubleSpace raw).getD i []) = true →
    (∀ j, j < (splitDoubleSpace raw).length → i < j →
      containsSub sentinel ((splitDoubleSpace raw).getD j []) = false) →
    parse raw = parseChunksFrom 0 ((splitDoubleSpace raw).drop (i + 1)) := by
  intro raw i hi hsent hlast
  have hf : findStartInd (splitDoubleSpace raw) = some i := by
    rw [findStartInd]
    simpa using scanSentinel_last (splitDoubleSpace raw) i 0 none hi hsent hlast
  rw [parse, hf]

/-- C1 witness: a two-chunk input whose only sentinel chunk is chunk 0. -/
theorem sentinel_scan_last_occurrence_w :
    containsSub sentinel ((splitDoubleSpace rawOneRecord).getD 0 []) = true ∧
    parse rawOneRecord = parseChunksFrom 0 ((splitDoubleSpace rawOneRecord).drop 1) :=
  ⟨by decide, sentinel_scan_last_occurrence rawOneRecord 0 (by decide) (by decide) (by decide)⟩

/-- C4 counterexample: for the literal input "sentinel chunk directly followed
by the Bradbury data row", the row is the first post-header chunk, so the
8-token drop of cell 12 swallows its 5 tokens and `parse` returns NO records
instead of the claimed single Filing. -/
theorem scenario_bradbury_cex : parse rawBradburyLiteral = Except.ok [] := rfl

/-- C4 (amended): with a filler chunk between the sentinel chunk and the
Bradbury data row (so the row is not the first post-header chunk, whose first
8 tokens are dropped), `parse` returns exactly one record whose fields are
cik `1236397`, company `BRADBURY DANIEL`, form `4`, date `20190401`, and the
document path prefixed with the fixed archive base. -/
theorem scenario_bradbury :
    parse rawBradburyAmended = Except.ok [recBradbury] ∧
    (toDocumentDict recBradbury).cik_number = str "1236397" ∧
    (toDocumentDict recBradbury).form_id = str "4" ∧
    (toDocumentDict recBradbury).date = str "20190401" ∧
    (toDocumentDict recBradbury).file_url =
      archivesBase ++ str "edgar/data/1236397/0000886744-19-000047.txt" :=
  ⟨rfl, rfl, rfl, rfl, rfl⟩

/-- The anchored window `clean_item_data[(index - 4):index + 1]` never has
more than 5 entries. -/
lemma pySlice_window_length_le (l : List α) (i : Nat) :
    (pySlice l ((i : Int) - 4) ((i : Int) + 1)).length ≤ 5 := by
  rw [pySlice]
  simp only [List.length_drop, List.length_take]
  split_ifs <;> omega

lemma extractFrom_len : ∀ (rows clean : List (List Char)) (i : Nat)
    (out : List (List (List Char))), extractFrom clean i rows = Except.ok out →
    ∀ r ∈ out, r.length = 5 := by
  intro rows
  induction rows with
  | nil =>
    intro clean i out h r hr
    simp only [extractFrom, Except.ok.injEq] at h
    subst h
    simp at hr
  | cons row rest ih =>
    intro clean i out h r hr
    simp only [extractFrom] at h
    split at h
    · split at h
      · split at h
        · split at h
          · exact absurd h (by simp)
          · rename_i h4 tl heq
            simp only [Except.ok.injEq] at h
            subst h
            rcases List.mem_cons.mp hr with hhead | htail
            · have hle := pySlice_window_length_le clean i
              rw [hhead, List.length_set]
              omega
            · exact ih clean (i + 1) tl heq r htail
        · exact absurd h (by simp)
      · exact ih clean (i + 1) out h r hr
    · exact ih clean (i + 1) out h r hr

lemma parseChunksFrom_len : ∀ (chunks : List (List Char)) (i : Nat)
    (out : List (List (List Char))), parseChunksFrom i chunks = Except.ok out →
    ∀ r ∈ out, r.length = 5 := by
  intro chunks
  induction chunks with
  | nil =>
    intro i out h r hr
    simp only [parseChunksFrom, Except.ok.injEq] at h
    subst h
    simp at hr
  | cons item rest ih =>
    intro i out h r hr
    rw [parseChunksFrom] at h
    split at h
    · exact absurd h (by simp)
    · exact absurd h (by simp)
    · rename_i xs ys heq1 heq2
      simp only [Except.ok.injEq] at h
      subst h
      rcases List.mem_append.mp hr with hx | hy
      · rw [extractChunk] at heq1
        exact extractFrom_len _ _ 0 xs heq1 r hx
      · exact ih (i + 1) ys heq2 r hy

/-- C2 counterexample: the chunk `"x.txt"` has a single token containing
`.txt`; Python's negative slice makes the anchored window the non-empty
`["x.txt"]`, and the rewrite `mini_list[4] = ...` raises `IndexError`, so
`parse` fails on a short window instead of skipping it. -/
theorem record_window_short_chunk_cex :
    parse rawShortChunk = Except.error ParseError.indexError := rfl

/-- C2 (amended): every record `parse` emits has exactly 5 fields, and a
`.txt` token with fewer than 4 predecessors inside a chunk of at least 5
tokens yields an empty window that is skipped; but when the whole chunk has
fewer than 5 tokens the window is non-empty and shorter than 5, and `parse`
fails with an index error rather than skipping the candidate. -/
theorem record_window_width :
    (∀ (raw : List Char) (out : List (List (List Char))), parse raw = Except.ok out →
      ∀ r ∈ out, r.length = 5) ∧
    parse rawSkippedWindow = Except.ok [] ∧
    parse rawShortChunkB = Except.error ParseError.indexError := by
  refine ⟨?_, rfl, rfl⟩
  intro raw out h r hr
  rw [parse] at h
  split at h
  · exact absurd h (by simp)
  · exact parseChunksFrom_len _ 0 out h r hr

/-- C2 witness: a successful parse whose single record has exactly 5 fields. -/
theorem record_window_width_w :
    parse rawFiveTokens = Except.ok [recA] ∧ recA.length = 5 :=
  ⟨rfl, record_window_width.1 rawFiveTokens [recA] rfl recA (by simp)⟩

lemma containsSub_nil_needle : ∀ t : List Char, containsSub [] t = true := by
  intro t
  cases t with
  | nil => rfl
  | cons c r => simp [containsSub, startsWith]

lemma startsWith_append_of : ∀ (n f t : List Char),
    startsWith n f = true → startsWith n (f ++ t) = true := by
  intro n
  induction n with
  | nil => intro f t _; rfl
  | cons c ns ih =>
    intro f t h
    cases f with
    | nil => rw [startsWith] at h; exact absurd h (by simp)
    | cons d fs =>
      rw [List.cons_append, startsWith]
      rw [startsWith] at h
      split_ifs at h ⊢ with hcd
      exact ih fs t h

lemma containsSub_append_left : ∀ (f t n : List Char),
    containsSub n f = true → containsSub n (f ++ t) = true := by
  intro f
  induction f with
  | nil =>
    intro t n h
    cases n with
    | nil => exact containsSub_nil_needle t
    | cons c ns => rw [containsSub, startsWith] at h; exact absurd h (by simp)
  | cons c fs ih =>
    intro t n h
    rw [containsSub, Bool.or_eq_true] at h
    show containsSub n (c :: (fs ++ t)) = true
    rw [containsSub, Bool.or_eq_true]
    rcases h with h1 | h2
    · left
      have := startsWith_append_of n (c :: fs) t h1
      rwa [List.cons_append] at this
    · right
      exact ih t n h2

/-- Substring containment is monotone along list containment: if the needle
occurs in an infix of `s`, it occurs in `s`. -/
lemma contains_of_within : ∀ (n f s : List Char),
    f <:+: s → containsSub n f = true → containsSub n s = true := by
  intro n f s hinf h
  obtain ⟨u, v, rfl⟩ := hinf
  induction u with
  | nil => simpa using containsSub_append_left f v n h
  | cons a u2 ih =>
    show containsSub n (a :: (u2 ++ f ++ v)) = true
    rw [containsSub, Bool.or_eq_true]
    right
    exact ih

lemma splitDoubleSpace_ne_nil : ∀ s : List Char, splitDoubleSpace s ≠ [] := by
  intro s
  rcases s with _ | ⟨c, _ | ⟨d, rest⟩⟩
  · simp [splitDoubleSpace]
  · simp [splitDoubleSpace]
  · rw [splitDoubleSpace]
    split_ifs <;> simp

lemma splitDoubleSpace_head_pre : ∀ (s : List Char), ∀ (f : List Char)
    (fs : List (List Char)), splitDoubleSpace s = f :: fs → f <+: s := by
  intro s
  induction s using splitDoubleSpace.induct with
  | case1 =>
    intro f fs h
    rw [splitDoubleSpace] at h
    injection h with h1 _
    rw [← h1]
  | case2 c =>
    intro f fs h
    rw [splitDoubleSpace] at h
    injection h with h1 _
    rw [← h1]
  | case3 c d rest hcond ih =>
    intro f fs h
    rw [splitDoubleSpace, if_pos hcond] at h
    injection h with h1 _
    rw [← h1]
    exact List.nil_prefix
  | case4 c d rest hcond ih =>
    intro f fs h
    rw [splitDoubleSpace, if_neg hcond] at h
    rcases hsd : splitDoubleSpace (d :: rest) with _ | ⟨f0, fs0⟩
    · exact absurd hsd (splitDoubleSpace_ne_nil (d :: rest))
    · rw [hsd] at h
      injection h with h1 _
      obtain ⟨t, ht⟩ := ih f0 fs0 hsd
      refine ⟨t, ?_⟩
      rw [← h1]
      simp only [List.headD_cons, List.cons_append, ht]

/-- Every chunk produced by the double-space split occurs in the source
text. -/
lemma splitDoubleSpace_chunk_within : ∀ (s f : List Char),
    f ∈ splitDoubleSpace s → f <:+: s := by
  intro s
  induction s using splitDoubleSpace.induct with
  | case1 =>
    intro f h
    rw [splitDoubleSpace] at h
    simp at h
    subst h
    exact ⟨[], [], rfl⟩
  | case2 c =>
    intro f h
    rw [splitDoubleSpace] at h
    simp at h
    subst h
    exact ⟨[], [], by simp⟩
  | case3 c d rest hcond ih =>
    intro f h
    rw [splitDoubleSpace, if_pos hcond] at h
    rcases List.mem_cons.mp h with rfl | h2
    · exact ⟨[], c :: d :: rest, by simp⟩
    · obtain ⟨u, v, huv⟩ := ih f h2
      exact ⟨c :: d :: u, v, by rw [← huv]; simp⟩
  | case4 c d rest hcond ih =>
    intro f h
    rw [splitDoubleSpace, if_neg hcond] at h
    rcases hsd : splitDoubleSpace (d :: rest) with _ | ⟨f0, fs0⟩
    · exact absurd hsd (splitDoubleSpace_ne_nil (d :: rest))
    · rw [hsd] at h
      rcases List.mem_cons.mp h with rfl | h2
      · obtain ⟨t, ht⟩ := splitDoubleSpace_head_pre (d :: rest) f0 fs0 hsd
        refine ⟨[], t, ?_⟩
        simp only [List.headD_cons, List.nil_append, List.cons_append, ht]
      · obtain ⟨u, v, huv⟩ := ih f (by rw [hsd]; exact List.mem_cons_of_mem f0 h2)
        exact ⟨c :: u, v, by rw [← huv]; simp⟩

/-- C3 counterexample: `rawZeroRecords` has the sentinel and a non-empty data
section (one post-header chunk) from which zero records are extracted, yet
`parse` does not fail: it succeeds with the empty record sequence, where the
claim requires a `MalformedIndexError`. -/
theorem parse_zero_records_cex :
    parse rawZeroRecords = Except.ok [] ∧
    (splitDoubleSpace rawZeroRecords).drop 1 ≠ [] :=
  ⟨rfl, by decide⟩

/-- C3 (amended): `parse` fails with the sentinel-not-found error whenever the
raw text does not contain the sentinel substring; it also fails — with an
index error — when a data chunk with fewer than 5 tokens contains a `.txt`
token; extracting zero records from a non-empty data section is NOT a
failure: `parse` then succeeds with the empty sequence. No partial result is
ever returned. -/
theorem parse_failure_modes :
    (∀ raw : List Char, containsSub sentinel raw = false →
      parse raw = Except.error ParseError.sentinelNotFound) ∧
    parse rawZeroRecords = Except.ok [] ∧
    parse rawShortChunk = Except.error ParseError.indexError := by
  refine ⟨?_, rfl, rfl⟩
  intro raw hraw
  have hall : ∀ x ∈ splitDoubleSpace raw, containsSub sentinel x = false := by
    intro x hx
    rcases hcs : containsSub sentinel x with _ | _
    · rfl
    · have := contains_of_within sentinel x raw (splitDoubleSpace_chunk_within raw x hx) hcs
      rw [this] at hraw
      exact absurd hraw (by simp)
  have hf : findStartInd (splitDoubleSpace raw) = none :=
    scanSentinel_all_false (splitDoubleSpace raw) 0 none hall
  rw [parse, hf]

/-- C3 witness: a raw text without the sentinel substring. -/
theorem parse_failure_modes_w :
    parse (str "hello world") = Except.error ParseError.sentinelNotFound :=
  parse_failure_modes.1 (str "hello world") (by decide)
